import Mathlib

/-!
Verification development for the RBFE controller (`rbfe_controller.py`),
centred on the `NewLambdaSchedule` class: the parameter-file projection
(`_rewrite_file`, `write_new_lambda_schedule`), the file discovery helpers
(`_find_endpoint_files`, `_find_lambda_files`), the job-descriptor
compiler (`write_group_files`, `write_group_file_lines`), the working-tree
copy (`copy_directory`), and the constructor.

Python text is modelled as lists of characters; lambda values are modelled
as natural numbers of 10⁻⁸ units, exact for the 8-decimal fixed-point
values the program reads, formats and writes; a Python operation that can
raise an exception is modelled as an `Option`-valued function, `none`
standing for the uncaught exception.
-/

/-- Text (a Python `str`) is modelled as a list of characters. -/
abbrev Str := List Char

/-- The character list of a string literal. -/
def lit (s : String) : Str := s.data

/-- Boolean test that the first list is an initial segment of the second
(`str.startswith`, and the building block of substring search). -/
def isPfxOf : Str → Str → Bool
  | [], _ => true
  | _ :: _, [] => false
  | a :: as, b :: bs => a = b && isPfxOf as bs

/-- Python's `sub in s`: `sub` occurs contiguously somewhere in `s`. -/
def hasSubstr : Str → Str → Bool
  | [], sub => isPfxOf sub []
  | s@(_ :: t), sub => isPfxOf sub s || hasSubstr t sub

/-- Python's `s.split(c)` for a one-character separator: splits at every
occurrence of `c`, keeping empty pieces, and always returns at least one
piece. -/
def splitCh : Str → Char → List Str
  | [], _ => [[]]
  | x :: t, c =>
    if x = c then [] :: splitCh t c
    else
      match splitCh t c with
      | [] => [[x]]
      | h :: r => (x :: h) :: r

/-- The decimal digit character for `d ≤ 9` (only such arguments arise). -/
def digitChar : ℕ → Char
  | 0 => '0' | 1 => '1' | 2 => '2' | 3 => '3' | 4 => '4'
  | 5 => '5' | 6 => '6' | 7 => '7' | 8 => '8' | _ => '9'

/-- Fuelled digit expansion of a natural number, most significant first. -/
def natReprAux : ℕ → ℕ → Str
  | 0, _ => []
  | f + 1, n =>
    if n < 10 then [digitChar n]
    else natReprAux f (n / 10) ++ [digitChar (n % 10)]

/-- Python's `str(n)` for a nonnegative integer: decimal digits, no sign,
no padding. -/
def natRepr (n : ℕ) : Str := natReprAux (n + 1) n

/-- Python's `str(i)` for an `int`. -/
def intRepr (i : ℤ) : Str :=
  if i < 0 then '-' :: natRepr (-i).toNat else natRepr i.toNat

/-- Numeric value of a decimal digit character, from its code point. -/
def digitVal (c : Char) : Option ℕ :=
  if '0' ≤ c ∧ c ≤ '9' then some (c.toNat - 48) else none

/-- Accumulating decimal parser over a digit string. -/
def parseNatAux : Str → ℕ → Option ℕ
  | [], acc => some acc
  | c :: t, acc =>
    match digitVal c with
    | some d => parseNatAux t (10 * acc + d)
    | none => none

/-- Parse a nonempty all-digit string as a natural number. -/
def parseNat : Str → Option ℕ
  | [] => none
  | s => parseNatAux s 0

/-- Whitespace characters stripped by Python's `int`. -/
def wsChar (c : Char) : Bool :=
  c == ' ' || c == '\t' || c == '\n' || c == '\r'

/-- Strip leading and trailing whitespace. -/
def stripWS (s : Str) : Str :=
  ((s.dropWhile wsChar).reverse.dropWhile wsChar).reverse

/-- Python's `int(s)`: optional surrounding whitespace, optional sign,
decimal digits; `none` models the `ValueError` on anything else
(digit-group underscores are not modelled; no call site produces them). -/
def parseInt (s : Str) : Option ℤ :=
  match stripWS s with
  | '+' :: t => (parseNat t).map (fun n => (n : ℤ))
  | '-' :: t => (parseNat t).map (fun n => -(n : ℤ))
  | t => (parseNat t).map (fun n => (n : ℤ))

/-- Python list indexing `l[i]`, with negative-index wraparound; `none`
models the `IndexError`. -/
def pyIndex {α : Type} (l : List α) (i : ℤ) : Option α :=
  if 0 ≤ i then l[i.toNat]?
  else if (-i).toNat ≤ l.length then l[l.length - (-i).toNat]?
  else none

/-- Fuelled worker for `pyReplace`; the fuel bounds the string length. -/
def pyReplaceAux (old new : Str) : ℕ → Str → Str
  | _, [] => []
  | 0, s => s
  | f + 1, x :: t =>
    if old ≠ [] ∧ isPfxOf old (x :: t) = true then
      new ++ pyReplaceAux old new f ((x :: t).drop old.length)
    else x :: pyReplaceAux old new f t

/-- Python's `s.replace(old, new)` for nonempty `old`: replaces every
leftmost non-overlapping occurrence (for empty `old` Python inserts
between characters; no modelled call site passes an empty pattern). -/
def pyReplace (s old new : Str) : Str := pyReplaceAux old new s.length s

/-- Fuelled worker for `globMatch`. -/
def globMatchAux : ℕ → Str → Str → Bool
  | 0, p, n => p.isEmpty && n.isEmpty
  | _ + 1, [], n => n.isEmpty
  | f + 1, '*' :: pt, n =>
    globMatchAux f pt n ||
      (match n with
       | [] => false
       | _ :: nt => globMatchAux f ('*' :: pt) nt)
  | f + 1, c :: pt, n =>
    match n with
    | [] => false
    | d :: nt => c == d && globMatchAux f pt nt

/-- `fnmatch.fnmatch` for the patterns used by `copy_directory`: literal
characters and `*` (which matches any character sequence, `/` included),
anchored at both ends. -/
def globMatch (p name : Str) : Bool :=
  globMatchAux (p.length + name.length + 1) p name

/-- The exclusion patterns of `NewLambdaSchedule.copy_directory`:
`shutil.ignore_patterns("*.mdout", "t*/*.mdout", "t*/*.nc")`. -/
def ignorePatternList : List Str := [lit "*.mdout", lit "t*/*.mdout", lit "t*/*.nc"]

/-- Whether one directory-entry base name is ignored: `shutil.copytree`
hands each directory's entry base names to the `ignore_patterns` filter,
which runs `fnmatch` on those base names. -/
def ignoredName (name : Str) : Bool :=
  ignorePatternList.any (fun p => globMatch p name)

/-- The files `shutil.copytree` copies in `copy_directory`, a source tree
being given as a list of relative paths, each path a list of base-name
components (an entry is skipped when the base name of any of its path
components is matched by a pattern). -/
def copy_directory_files (tree : List (List Str)) : List (List Str) :=
  tree.filter (fun path => path.all (fun comp => !ignoredName comp))

/-- A lambda (coupling) value, modelled by its number of 10⁻⁸ units: the
pipeline reads and writes lambda values as 8-decimal fixed-point tokens,
and never computes with them (it only formats, counts and indexes them),
so this representation is exact for every value the program handles. -/
abbrev Lam := ℕ

/-- One unit of lambda: `1.0` is `lamScale` units of 10⁻⁸. -/
def lamScale : ℕ := 100000000

/-- Zero-pad a digit string on the left to `e` characters. -/
def padZeros (e : ℕ) (s : Str) : Str :=
  List.replicate (e - s.length) '0' ++ s

/-- The eight digits after the decimal point of a lambda value. -/
def fracDigits8 (v : Lam) : Str := padZeros 8 (natRepr (v % lamScale))

/-- Python's `str(x)` for a float holding a lambda value: the shortest
decimal expansion, with at least one digit after the point (models
CPython float repr for the 8-decimal-exact values schedules hold). -/
def pyStr (v : Lam) : Str :=
  let frac := (fracDigits8 v).reverse.dropWhile (fun c => c = '0')
  natRepr (v / lamScale) ++ '.' ::
    (if frac = [] then ['0'] else frac.reverse)

/-- The canonical on-disk token: Python's fixed-point format spec `.8f`,
eight digits after the point. -/
def fmt8 (v : Lam) : Str :=
  natRepr (v / lamScale) ++ '.' :: fracDigits8 v

/-- The `0.00000000` endpoint token. -/
def tok0 : Str := lit "0.00000000"

/-- The `1.00000000` endpoint token. -/
def tok1 : Str := lit "1.00000000"

/-- The newline appended by every rewritten directive line. -/
def nlc : Char := '\n'


/-- The body of the per-line loop of `NewLambdaSchedule._rewrite_file`
(src/rbfe_controller.py:434-446): a line containing `mbar_states` is
replaced by the new state count, a line then containing `mbar_lambda(`
has its index parsed and is replaced by the schedule entry (or by the
empty string when the index exceeds the schedule length), a line then
containing `clambda` is replaced by the target coupling value; `none`
models the uncaught `ValueError`/`IndexError` of `int(...)` and
`self.lambda_schedule[temp-1]`. -/
def rewrite_line (sched : List Lam) (clam : Str) (line : Str) : Option Str :=
  let l1 :=
    if hasSubstr line (lit "mbar_states") then
      lit "mbar_states = " ++ natRepr sched.length ++ [nlc]
    else line
  let l2opt : Option Str :=
    if hasSubstr l1 (lit "mbar_lambda(") then
      match parseInt ((splitCh ((splitCh l1 '(').getD 1 []) ')').headD []) with
      | none => none
      | some temp =>
        if temp ≤ (sched.length : ℤ) then
          match pyIndex sched (temp - 1) with
          | none => none
          | some v =>
            some (lit "mbar_lambda(" ++ intRepr temp ++ lit ") = " ++ pyStr v ++ [nlc])
        else some []
    else some l1
  match l2opt with
  | none => none
  | some l2 =>
    some (if hasSubstr l2 (lit "clambda") then lit "clambda = " ++ clam ++ [nlc] else l2)

/-- `NewLambdaSchedule._rewrite_file`: the per-line rewrite over the whole
file content (`out_lines`); an exception on any line aborts the call. -/
def rewrite_file (sched : List Lam) (clam : Str) : List Str → Option (List Str)
  | [] => some []
  | l :: t =>
    match rewrite_line sched clam l with
    | none => none
    | some l2 =>
      match rewrite_file sched clam t with
      | none => none
      | some t2 => some (l2 :: t2)

/-- `NewLambdaSchedule._find_endpoint_files`: the input files whose path
contains the `0.00000000` or `1.00000000` token.  A file is a pair of its
path and its content (`readlines` output). -/
def endpoint_files (files : List (Str × List Str)) : List (Str × List Str) :=
  files.filter (fun fc => hasSubstr fc.1 tok0 || hasSubstr fc.1 tok1)

/-- `NewLambdaSchedule._find_lambda_files`: takes the first listed file
whose path does not contain `0.00000000`, cuts its path at the first `_`
to get `start_name`, and keeps every file whose path contains
`start_name`.  When no such file exists but the listing is nonempty the
loop never assigns `start_name` and the second loop raises a Python
`NameError`, modelled as `none`; an empty listing yields an empty result
without touching `start_name`. -/
def find_lambda_files (files : List (Str × List Str)) :
    Option (List (Str × List Str)) :=
  match files.find? (fun fc => !hasSubstr fc.1 tok0) with
  | some fc =>
    some (files.filter (fun g => hasSubstr g.1 ((splitCh fc.1 '_').headD [])))
  | none => if files.isEmpty then some [] else none

/-- The endpoint half of `NewLambdaSchedule.write_new_lambda_schedule`
(src/rbfe_controller.py:346-356): each endpoint file is rewritten with
its own fixed coupling token (`0.00000000` when the path contains that
token, else `1.00000000`) and written to its path with the input
directory replaced by the output directory. -/
def process_endpoints (din dout : Str) (sched : List Lam) :
    List (Str × List Str) → Option (List (Str × List Str))
  | [] => some []
  | fc :: t =>
    match rewrite_file sched (if hasSubstr fc.1 tok0 then tok0 else tok1) fc.2 with
    | none => none
    | some out =>
      match process_endpoints din dout sched t with
      | none => none
      | some rest => some ((pyReplace fc.1 din dout, out) :: rest)

/-- The inner loop of the interior half of `write_new_lambda_schedule`:
for one interior lambda value, every template file is rewritten with the
value's 8-decimal token as coupling value and written to its path with
the reference lambda token replaced by the new token and the input
directory replaced by the output directory. -/
def interior_for_lambda (din dout refl fmtl : Str) (sched : List Lam) :
    List (Str × List Str) → Option (List (Str × List Str))
  | [] => some []
  | fc :: t =>
    match rewrite_file sched fmtl fc.2 with
    | none => none
    | some out =>
      match interior_for_lambda din dout refl fmtl sched t with
      | none => none
      | some rest =>
        some ((pyReplace (pyReplace fc.1 refl fmtl) din dout, out) :: rest)

/-- The outer loop of the interior half of `write_new_lambda_schedule`:
iterates over `lambda_schedule[1:-1]`. -/
def interior_all (din dout refl : Str) (sched : List Lam)
    (lamFiles : List (Str × List Str)) : List Lam → Option (List (Str × List Str))
  | [] => some []
  | q :: t =>
    match interior_for_lambda din dout refl (fmt8 q) sched lamFiles with
    | none => none
    | some outs =>
      match interior_all din dout refl sched lamFiles t with
      | none => none
      | some rest => some (outs ++ rest)

/-- `NewLambdaSchedule.write_new_lambda_schedule`
(src/rbfe_controller.py:344-368) as a function from the input listing to
the ordered list of written files (path, lines): endpoint files first,
then, for each interior schedule value, the rewritten template files.
`ref_lambda` is the basename of the first template file cut at its first
`_`; taking it from an empty template list raises `IndexError` (`none`),
as does the `NameError` inside `_find_lambda_files`. -/
def write_new_lambda_schedule (din dout : Str) (sched : List Lam)
    (files : List (Str × List Str)) : Option (List (Str × List Str)) :=
  match process_endpoints din dout sched (endpoint_files files) with
  | none => none
  | some eps =>
    match find_lambda_files files with
    | none => none
    | some lamFiles =>
      match lamFiles with
      | [] => none
      | f0 :: _ =>
        let refl := (splitCh ((splitCh f0.1 '/').getLastD []) '_').headD []
        match interior_all din dout refl sched lamFiles ((sched.drop 1).dropLast) with
        | none => none
        | some ints => some (eps ++ ints)

/-- The state set up by `NewLambdaSchedule.__init__`
(src/rbfe_controller.py:330-335): the four fields are assigned verbatim;
the constructor performs no validation of the schedule whatsoever (its
only other act is the filesystem copy `copy_directory`). -/
structure NewLambdaScheduleState where
  input_dir : Str
  output_dir : Str
  lambda_schedule : List Lam
  ntrials : ℕ
deriving DecidableEq

/-- `NewLambdaSchedule.__init__`, minus the filesystem side effect. -/
def newLambdaSchedule_init (din dout : Str) (sched : List Lam) (nt : ℕ) :
    NewLambdaScheduleState :=
  ⟨din, dout, sched, nt⟩

/-- Written from the spec's words (section 4.1), for comparison with the
code: a schedule is valid when its length is at least 2 and its first and
last values are exactly 0.0 and 1.0. -/
def specScheduleValid (s : List Lam) : Prop :=
  2 ≤ s.length ∧ s.headD lamScale = 0 ∧ s.getLastD 0 = lamScale

instance (s : List Lam) : Decidable (specScheduleValid s) := by
  unfold specScheduleValid; infer_instance

/-- The fixed stage pipeline `state_order` of
`NewLambdaSchedule.write_group_files` (src/rbfe_controller.py:379). -/
def state_order : List Str :=
  [lit "init", lit "min1", lit "min2", lit "eqpre1P0", lit "eqpre2P0",
   lit "eqP0", lit "eqNTP4", lit "eqV", lit "eqP", lit "eqA",
   lit "eqProt2", lit "eqProt1", lit "eqProt05", lit "eqProt025",
   lit "eqProt01", lit "eqProt0", lit "minTI", lit "eqpre1P0TI",
   lit "eqpre2P0TI", lit "eqP0TI", lit "eqATI", lit "eqBTI",
   lit "preTI", lit "ti"]

/-- The `end_states` list of `write_group_files`: shared equilibration
stages run only at the two endpoint lambda values. -/
def end_states : List Str :=
  [lit "eqpre1P0", lit "eqpre2P0", lit "eqP0", lit "eqNTP4", lit "eqV",
   lit "eqP", lit "eqA", lit "eqProt2", lit "eqProt1", lit "eqProt05",
   lit "eqProt025", lit "eqProt01", lit "eqProt0"]

/-- The `lambda_states` list of `write_group_files`: shared stages run at
every schedule value. -/
def lambda_states : List Str := [lit "eqATI", lit "eqBTI"]

/-- The `ti_states` list of `write_group_files`: per-trial stages. -/
def ti_states : List Str := [lit "preTI", lit "ti"]

/-- `list.index` for string lists (only called on members). -/
def indexOfStr : List Str → Str → ℕ
  | [], _ => 0
  | x :: t, s => if x = s then 0 else indexOfStr t s + 1

/-- `state_order[state_order.index(s) - 1]`: the predecessor stage. -/
def prevOf (s : Str) : Str :=
  state_order.getD (indexOfStr state_order s - 1) []

/-- `NewLambdaSchedule.write_group_file_lines`
(src/rbfe_controller.py:409-414): one descriptor line per schedule value,
in schedule order, each line the verbatim sander group-file template. -/
def write_group_file_lines (sched : List Lam) (prevstep step tag prevtag : Str) :
    List Str :=
  sched.map (fun q =>
    lit "-O -p unisc.parm7 -c " ++ prevtag ++ lit "/" ++ fmt8 q ++ lit "_" ++
      prevstep ++ lit ".rst7 -i inputs/" ++ fmt8 q ++ lit "_" ++ step ++
      lit ".mdin -o " ++ tag ++ lit "/" ++ fmt8 q ++ lit "_" ++ step ++
      lit ".mdout -r " ++ tag ++ lit "/" ++ fmt8 q ++ lit "_" ++ step ++
      lit ".rst7 -x " ++ tag ++ lit "/" ++ fmt8 q ++ lit "_" ++ step ++
      lit ".nc -ref " ++ prevtag ++ lit "/" ++ fmt8 q ++ lit "_" ++ prevstep ++
      lit ".rst7" ++ [nlc])

/-- One group file written by `write_group_files`: its stage, the trial it
was written for (`none` for the shared `equil` files, `some n` for the
`t{n}` files of the per-trial loop variable `ntrial`), its path, and its
descriptor lines. -/
structure GroupFile where
  step : Str
  trial : Option ℕ
  fname : Str
  lines : List Str
deriving DecidableEq

/-- The `ep_schedule = [0.00000000, 1.00000000]` of `write_group_files`. -/
def ep_schedule : List Lam := [0, lamScale]

/-- `NewLambdaSchedule.write_group_files` (src/rbfe_controller.py:378-407)
as the ordered list of group files it writes: the `end_states` at the two
endpoint values, then the `lambda_states` over the full schedule (all
with tag and predecessor tag `equil`), then for each trial `1..ntrials`
the `ti_states` over the full schedule, `preTI` reading from `equil` and
`ti` reading from the literal directory `ti`. -/
def write_group_files (dout : Str) (sched : List Lam) (ntrials : ℕ) :
    List GroupFile :=
  (end_states.map (fun s =>
    ⟨s, none, dout ++ lit "/inputs/equil_" ++ s ++ lit ".groupfile",
      write_group_file_lines ep_schedule (prevOf s) s (lit "equil") (lit "equil")⟩))
  ++ (lambda_states.map (fun s =>
    ⟨s, none, dout ++ lit "/inputs/equil_" ++ s ++ lit ".groupfile",
      write_group_file_lines sched (prevOf s) s (lit "equil") (lit "equil")⟩))
  ++ ((List.range ntrials).flatMap (fun n =>
    ti_states.map (fun s =>
      ⟨s, some (n + 1),
        dout ++ lit "/inputs/t" ++ natRepr (n + 1) ++ lit "_" ++ s ++ lit ".groupfile",
        write_group_file_lines sched (prevOf s) s
          (lit "t" ++ natRepr (n + 1))
          (if s = lit "preTI" then lit "equil" else lit "ti")⟩)))

/-- One emitted job descriptor: its stage, the trial of the group file it
sits in (`none` for shared files), and its literal line. -/
structure Desc where
  step : Str
  trial : Option ℕ
  line : Str
deriving DecidableEq

/-- The descriptors of one group file, in line order. -/
def groupDescs (g : GroupFile) : List Desc :=
  g.lines.map (fun l => ⟨g.step, g.trial, l⟩)

/-- The full compiled descriptor sequence: the group files in the order
`write_group_files` writes them, each file's lines in order. -/
def compiled_descriptors (dout : Str) (sched : List Lam) (ntrials : ℕ) :
    List Desc :=
  (write_group_files dout sched ntrials).flatMap groupDescs

/-- Position of a stage in the fixed pipeline. -/
def stageIdx (s : Str) : ℕ := indexOfStr state_order s

/-- A descriptor belongs to trial `t` when it sits in a shared (`equil`)
group file or in that trial's own group file. -/
def belongsToTrial (t : ℕ) (d : Desc) : Prop :=
  d.trial = none ∨ d.trial = some t

instance (t : ℕ) (d : Desc) : Decidable (belongsToTrial t d) := by
  unfold belongsToTrial; infer_instance

theorem isPfxOf_append_self : ∀ a b : Str, isPfxOf a (a ++ b) = true := by
  intro a b
  induction a with
  | nil => rfl
  | cons x t ih => simp [isPfxOf, ih]

theorem mem_of_isPfxOf : ∀ a b : Str, isPfxOf a b = true → ∀ x ∈ a, x ∈ b := by
  intro a
  induction a with
  | nil => intro b _ x hx; cases hx
  | cons y t ih =>
    intro b h x hx
    cases b with
    | nil => simp [isPfxOf] at h
    | cons z bt =>
      simp only [isPfxOf, Bool.and_eq_true, decide_eq_true_eq] at h
      rcases List.mem_cons.mp hx with rfl | hx
      · exact h.1 ▸ List.mem_cons_self _ _
      · exact List.mem_cons_of_mem _ (ih bt h.2 x hx)

theorem hasSubstr_of_pfx : ∀ s sub : Str, isPfxOf sub s = true → hasSubstr s sub = true := by
  intro s sub h
  cases s with
  | nil => simpa [hasSubstr] using h
  | cons x t => simp [hasSubstr, h]

theorem hasSubstr_missing : ∀ (s sub : Str) (w : Char),
    w ∈ sub → (∀ c ∈ s, c ≠ w) → hasSubstr s sub = false := by
  intro s
  induction s with
  | nil =>
    intro sub w hw _
    cases sub with
    | nil => cases hw
    | cons a t => rfl
  | cons x t ih =>
    intro sub w hw hs
    simp only [hasSubstr, Bool.or_eq_false_iff]
    constructor
    · by_contra hp
      have hp' : isPfxOf sub (x :: t) = true := by
        cases h : isPfxOf sub (x :: t) with
        | true => rfl
        | false => exact absurd h hp
      exact hs w (mem_of_isPfxOf sub (x :: t) hp' w hw) rfl
    · exact ih sub w hw (fun c hc => hs c (List.mem_cons_of_mem _ hc))

theorem splitCh_ne_nil : ∀ (s : Str) (c : Char), splitCh s c ≠ [] := by
  intro s c
  cases s with
  | nil => simp [splitCh]
  | cons x t =>
    simp only [splitCh]
    split
    · simp
    · split <;> simp

theorem splitCh_eq_cons : ∀ (a : Str) (c : Char) (b : Str),
    (∀ x ∈ a, x ≠ c) → splitCh (a ++ c :: b) c = a :: splitCh b c := by
  intro a c
  induction a with
  | nil => intro b _; simp [splitCh]
  | cons x t ih =>
    intro b h
    have hx : x ≠ c := h x (List.mem_cons_self _ _)
    have ht := ih b (fun y hy => h y (List.mem_cons_of_mem _ hy))
    simp only [List.cons_append, splitCh, if_neg hx, List.append_eq, ht]

theorem headD_splitCh_nc : ∀ (a : Str) (c : Char) (b : Str),
    (∀ x ∈ a, x ≠ c) →
    (splitCh (a ++ b) c).headD [] = a ++ (splitCh b c).headD [] := by
  intro a c
  induction a with
  | nil => intro b _; simp
  | cons x t ih =>
    intro b h
    have hx : x ≠ c := h x (List.mem_cons_self _ _)
    have ht := ih b (fun y hy => h y (List.mem_cons_of_mem _ hy))
    simp only [List.cons_append, splitCh, if_neg hx, List.append_eq]
    obtain ⟨h0, r, hr⟩ : ∃ h0 r, splitCh (t ++ b) c = h0 :: r := by
      cases hs : splitCh (t ++ b) c with
      | nil => exact absurd hs (splitCh_ne_nil _ _)
      | cons h0 r => exact ⟨h0, r, rfl⟩
    rw [hr]
    rw [hr] at ht
    simpa using ht

theorem splitCh_no_occ : ∀ (s : Str) (c : Char),
    (∀ x ∈ s, x ≠ c) → splitCh s c = [s] := by
  intro s c
  induction s with
  | nil => intro _; rfl
  | cons x t ih =>
    intro h
    have hx : x ≠ c := h x (List.mem_cons_self _ _)
    have ht := ih (fun y hy => h y (List.mem_cons_of_mem _ hy))
    simp [splitCh, if_neg hx, ht]

theorem digits_lit_eq :
    lit "0123456789" = ['0', '1', '2', '3', '4', '5', '6', '7', '8', '9'] := rfl

theorem digit_ne_of (c w : Char) (hc : c ∈ lit "0123456789")
    (hw : w ∉ lit "0123456789") : c ≠ w :=
  fun e => hw (e ▸ hc)

theorem digitChar_mem (d : ℕ) : digitChar d ∈ lit "0123456789" := by
  rw [digits_lit_eq]
  rcases d with _|_|_|_|_|_|_|_|_|d <;> simp [digitChar]

theorem natReprAux_stable : ∀ f f' n : ℕ, n < f → n < f' → natReprAux f n = natReprAux f' n := by
  intro f
  induction f with
  | zero => intro f' n h; omega
  | succ g ih =>
    intro f' n hf hf'
    cases f' with
    | zero => omega
    | succ g' =>
      by_cases h10 : n < 10
      · simp [natReprAux, h10]
      · have hd : n / 10 < n := Nat.div_lt_self (by omega) (by norm_num)
        have h1 : n / 10 < g := by omega
        have h2 : n / 10 < g' := by omega
        simp only [natReprAux, if_neg h10, ih g' (n / 10) h1 h2]

theorem natRepr_unfold (n : ℕ) :
    natRepr n = if n < 10 then [digitChar n]
      else natRepr (n / 10) ++ [digitChar (n % 10)] := by
  by_cases h : n < 10
  · simp [natRepr, natReprAux, h]
  · have hd : n / 10 < n := Nat.div_lt_self (by omega) (by norm_num)
    have h1 : natReprAux (n + 1) n = natReprAux n (n / 10) ++ [digitChar (n % 10)] := by
      simp [natReprAux, h]
    rw [natRepr, h1, if_neg h, natRepr,
      natReprAux_stable n (n / 10 + 1) (n / 10) (by omega) (by omega)]

theorem natRepr_ne_nil (n : ℕ) : natRepr n ≠ [] := by
  rw [natRepr_unfold]
  split <;> simp

theorem natRepr_digits : ∀ n : ℕ, ∀ c ∈ natRepr n, c ∈ lit "0123456789" := by
  intro n
  induction n using Nat.strong_induction_on with
  | _ n ih =>
    intro c hc
    rw [natRepr_unfold] at hc
    by_cases h : n < 10
    · rw [if_pos h] at hc
      simp only [List.mem_singleton] at hc
      exact hc ▸ digitChar_mem n
    · rw [if_neg h] at hc
      rcases List.mem_append.mp hc with hc | hc
      · exact ih (n / 10) (Nat.div_lt_self (by omega) (by norm_num)) c hc
      · simp only [List.mem_singleton] at hc
        exact hc ▸ digitChar_mem (n % 10)

theorem parseNatAux_append : ∀ (a b : Str) (acc : ℕ),
    parseNatAux (a ++ b) acc =
      match parseNatAux a acc with
      | some m => parseNatAux b m
      | none => none := by
  intro a
  induction a with
  | nil => intro b acc; rfl
  | cons c t ih =>
    intro b acc
    simp only [List.cons_append, parseNatAux]
    cases digitVal c with
    | none => rfl
    | some d => exact ih b (10 * acc + d)

theorem digitVal_digitChar (d : ℕ) (h : d < 10) : digitVal (digitChar d) = some d := by
  interval_cases d <;> rfl

theorem parseNatAux_natRepr : ∀ n acc : ℕ,
    parseNatAux (natRepr n) acc = some (acc * 10 ^ (natRepr n).length + n) := by
  intro n
  induction n using Nat.strong_induction_on with
  | _ n ih =>
    intro acc
    rw [natRepr_unfold]
    by_cases h : n < 10
    · rw [if_pos h]
      simp only [parseNatAux, digitVal_digitChar n h, List.length_singleton, pow_one,
        Option.some.injEq]
      omega
    · have hd : n / 10 < n := Nat.div_lt_self (by omega) (by norm_num)
      rw [if_neg h, parseNatAux_append, ih (n / 10) hd acc]
      have hm : n % 10 < 10 := Nat.mod_lt _ (by norm_num)
      simp only [parseNatAux, digitVal_digitChar (n % 10) hm, List.length_append,
        List.length_singleton, Option.some.injEq, pow_succ]
      have hk : (0 : ℕ) < 10 ^ (natRepr (n / 10)).length := Nat.pos_pow_of_pos _ (by norm_num)
      generalize 10 ^ (natRepr (n / 10)).length = k at *
      have := Nat.div_add_mod n 10
      nlinarith [Nat.div_add_mod n 10]

theorem parseNat_natRepr (n : ℕ) : parseNat (natRepr n) = some n := by
  have h := parseNatAux_natRepr n 0
  simp only [Nat.zero_mul, Nat.zero_add] at h
  cases hr : natRepr n with
  | nil => exact absurd hr (natRepr_ne_nil n)
  | cons c t =>
    show parseNatAux (c :: t) 0 = some n
    rw [← hr]
    exact h

theorem dropWhile_eq_self_of_not (s : Str) (h : ∀ c ∈ s, wsChar c = false) :
    s.dropWhile wsChar = s := by
  cases s with
  | nil => rfl
  | cons c t => simp [List.dropWhile, h c (List.mem_cons_self _ _)]

theorem stripWS_eq_self (s : Str) (h : ∀ c ∈ s, wsChar c = false) : stripWS s = s := by
  unfold stripWS
  rw [dropWhile_eq_self_of_not s h,
    dropWhile_eq_self_of_not s.reverse (fun c hc => h c (List.mem_reverse.mp hc)),
    List.reverse_reverse]

theorem digit_not_ws (c : Char) (hc : c ∈ lit "0123456789") : wsChar c = false := by
  rw [digits_lit_eq] at hc
  simp only [List.mem_cons, List.not_mem_nil, or_false] at hc
  rcases hc with rfl|rfl|rfl|rfl|rfl|rfl|rfl|rfl|rfl|rfl <;> rfl

theorem parseInt_digits_arm (s : Str) (hs : ∀ c ∈ s, c ∈ lit "0123456789") :
    parseInt s = (parseNat s).map (fun n => (n : ℤ)) := by
  unfold parseInt
  rw [stripWS_eq_self s (fun c hc => digit_not_ws c (hs c hc))]
  cases s with
  | nil => rfl
  | cons c t =>
    have hc := hs c (List.mem_cons_self _ _)
    rw [digits_lit_eq] at hc
    simp only [List.mem_cons, List.not_mem_nil, or_false] at hc
    rcases hc with rfl|rfl|rfl|rfl|rfl|rfl|rfl|rfl|rfl|rfl <;> rfl

theorem parseInt_natRepr (n : ℕ) : parseInt (natRepr n) = some (n : ℤ) := by
  rw [parseInt_digits_arm _ (natRepr_digits n), parseNat_natRepr]
  rfl

theorem intRepr_natCast (i : ℕ) : intRepr (i : ℤ) = natRepr i := by
  unfold intRepr
  rw [if_neg (by omega), Int.toNat_natCast]

theorem digits_sub_int (c : Char) (h : c ∈ lit "0123456789") :
    c ∈ lit "-0123456789" := by
  rw [digits_lit_eq] at h
  simp only [List.mem_cons, List.not_mem_nil, or_false] at h
  rcases h with rfl|rfl|rfl|rfl|rfl|rfl|rfl|rfl|rfl|rfl <;> decide

theorem intRepr_chars (t : ℤ) : ∀ c ∈ intRepr t, c ∈ lit "-0123456789" := by
  intro c hc
  unfold intRepr at hc
  split at hc
  · rcases List.mem_cons.mp hc with rfl | hc
    · decide
    · exact digits_sub_int c (natRepr_digits _ c hc)
  · exact digits_sub_int c (natRepr_digits _ c hc)

theorem parseInt_intRepr (t : ℤ) : parseInt (intRepr t) = some t := by
  by_cases h : t < 0
  · unfold intRepr
    rw [if_pos h]
    have hws : ∀ c ∈ '-' :: natRepr (-t).toNat, wsChar c = false := by
      intro c hc
      rcases List.mem_cons.mp hc with rfl | hc
      · rfl
      · exact digit_not_ws c (natRepr_digits _ c hc)
    unfold parseInt
    rw [stripWS_eq_self _ hws]
    show (parseNat (natRepr (-t).toNat)).map (fun n => -(n : ℤ)) = some t
    rw [parseNat_natRepr]
    show some (-(((-t).toNat : ℤ))) = some t
    exact congrArg some (by omega)
  · unfold intRepr
    rw [if_neg h, parseInt_natRepr]
    simp only [Option.some.injEq]
    omega

theorem ne_of_sets (c w : Char) (S : Str) (hc : c ∈ S) (hw : w ∉ S) : c ≠ w :=
  fun e => hw (e ▸ hc)

theorem forall_ne_append {s₁ s₂ : Str} {w : Char} (h₁ : ∀ c ∈ s₁, c ≠ w)
    (h₂ : ∀ c ∈ s₂, c ≠ w) : ∀ c ∈ s₁ ++ s₂, c ≠ w := by
  intro c hc
  rcases List.mem_append.mp hc with h | h
  · exact h₁ c h
  · exact h₂ c h

theorem forall_ne_of_set {S : Str} {w : Char} (hw : w ∉ S) (s : Str)
    (hs : ∀ c ∈ s, c ∈ S) : ∀ c ∈ s, c ≠ w :=
  fun c hc e => hw (e ▸ hs c hc)

theorem mem_dropWhile_imp {p : Char → Bool} : ∀ {l : Str} {c : Char},
    c ∈ l.dropWhile p → c ∈ l := by
  intro l
  induction l with
  | nil => intro c hc; cases hc
  | cons x t ih =>
    intro c hc
    by_cases hp : p x
    · rw [List.dropWhile_cons_of_pos hp] at hc
      exact List.mem_cons_of_mem _ (ih hc)
    · rwa [List.dropWhile_cons_of_neg hp] at hc

theorem fracDigits8_digits (v : Lam) : ∀ c ∈ fracDigits8 v, c ∈ lit "0123456789" := by
  intro c hc
  unfold fracDigits8 padZeros at hc
  rcases List.mem_append.mp hc with hc | hc
  · rw [List.eq_of_mem_replicate hc]; decide
  · exact natRepr_digits _ c hc

theorem digits_sub_dot (c : Char) (h : c ∈ lit "0123456789") :
    c ∈ lit ".0123456789" := by
  rw [digits_lit_eq] at h
  simp only [List.mem_cons, List.not_mem_nil, or_false] at h
  rcases h with rfl|rfl|rfl|rfl|rfl|rfl|rfl|rfl|rfl|rfl <;> decide

theorem pyStr_chars (v : Lam) : ∀ c ∈ pyStr v, c ∈ lit ".0123456789" := by
  intro c hc
  unfold pyStr at hc
  rcases List.mem_append.mp hc with hc | hc
  · exact digits_sub_dot c (natRepr_digits _ c hc)
  · rcases List.mem_cons.mp hc with rfl | hc
    · decide
    · split at hc
      · simp only [List.mem_singleton] at hc
        subst hc; decide
      · exact digits_sub_dot c
          (fracDigits8_digits v c (List.mem_reverse.mp (mem_dropWhile_imp (List.mem_reverse.mp hc))))

theorem fmt8_chars (v : Lam) : ∀ c ∈ fmt8 v, c ∈ lit ".0123456789" := by
  intro c hc
  unfold fmt8 at hc
  rcases List.mem_append.mp hc with hc | hc
  · exact digits_sub_dot c (natRepr_digits _ c hc)
  · rcases List.mem_cons.mp hc with rfl | hc
    · decide
    · exact digits_sub_dot c (fracDigits8_digits v c hc)

theorem pyIndex_cast_pred {α : Type} (l : List α) (i : ℕ) (h : 1 ≤ i) :
    pyIndex l ((i : ℤ) - 1) = l[i - 1]? := by
  unfold pyIndex
  rw [if_pos (by omega : (0 : ℤ) ≤ (i : ℤ) - 1)]
  have : ((i : ℤ) - 1).toNat = i - 1 := by omega
  rw [this]

theorem pyReplaceAux_no_occ (old new : Str) : ∀ (f : ℕ) (s : Str),
    hasSubstr s old = false → pyReplaceAux old new f s = s := by
  intro f
  induction f with
  | zero => intro s _; cases s with | nil => rfl | cons x t => rfl
  | succ g ih =>
    intro s hno
    cases s with
    | nil => rfl
    | cons x t =>
      simp only [hasSubstr, Bool.or_eq_false_iff] at hno
      show pyReplaceAux old new (g + 1) (x :: t) = x :: t
      rw [pyReplaceAux, if_neg (fun hcon => by rw [hno.1] at hcon; exact absurd hcon.2 (by simp)),
        ih t hno.2]

theorem pyReplace_concat (old new rest : Str) (hne : old ≠ [])
    (hno : hasSubstr rest old = false) :
    pyReplace (old ++ rest) old new = new ++ rest := by
  obtain ⟨o, ot, rfl⟩ : ∃ o ot, old = o :: ot := by
    cases old with
    | nil => exact absurd rfl hne
    | cons o ot => exact ⟨o, ot, rfl⟩
  unfold pyReplace
  simp only [List.cons_append, List.length_cons, List.length_append]
  rw [pyReplaceAux, if_pos ⟨hne, by
    have := isPfxOf_append_self (o :: ot) rest
    simpa using this⟩]
  have hdrop : (o :: (ot ++ rest)).drop (o :: ot).length = rest := by
    have : (o :: (ot ++ rest)) = (o :: ot) ++ rest := by simp
    rw [this, List.drop_left]
  rw [hdrop, pyReplaceAux_no_occ _ _ _ _ hno]

/-- The canonical shape of an indexed multistate-table line: the text
between the first `(` and the following `)` is the printed index. -/
def tlineZ (t : ℤ) (rest : Str) : Str :=
  lit "mbar_lambda(" ++ intRepr t ++ lit ") = " ++ rest

theorem tlineZ_eq (t : ℤ) (rest : Str) :
    tlineZ t rest = lit "mbar_lambda" ++ '(' :: (intRepr t ++ (lit ") = " ++ rest)) := by
  show lit "mbar_lambda(" ++ intRepr t ++ lit ") = " ++ rest = _
  have h1 : lit "mbar_lambda(" = lit "mbar_lambda" ++ ['('] := rfl
  rw [h1]
  simp [List.append_assoc]

theorem tlineZ_parse (t : ℤ) (rest : Str) :
    (splitCh ((splitCh (tlineZ t rest) '(').getD 1 []) ')').headD [] = intRepr t := by
  have hA : ∀ x ∈ lit "mbar_lambda", x ≠ '(' := by decide
  have h1 : splitCh (tlineZ t rest) '('
      = lit "mbar_lambda" :: splitCh (intRepr t ++ (lit ") = " ++ rest)) '(' := by
    rw [tlineZ_eq]
    exact splitCh_eq_cons _ '(' _ hA
  rw [h1]
  have hint : ∀ x ∈ intRepr t, x ≠ '(' :=
    forall_ne_of_set (by decide) _ (intRepr_chars t)
  obtain ⟨h0, r, hr⟩ : ∃ h0 r,
      splitCh (lit ") = " ++ rest) '(' = h0 :: r := by
    cases hs : splitCh (lit ") = " ++ rest) '(' with
    | nil => exact absurd hs (splitCh_ne_nil _ _)
    | cons h0 r => exact ⟨h0, r, rfl⟩
  have h2 : (splitCh (intRepr t ++ (lit ") = " ++ rest)) '(').headD []
      = intRepr t ++ h0 := by
    rw [headD_splitCh_nc _ '(' _ hint, hr]
    rfl
  have h3 : (lit "mbar_lambda" :: splitCh (intRepr t ++ (lit ") = " ++ rest)) '(').getD 1 []
      = (splitCh (intRepr t ++ (lit ") = " ++ rest)) '(').getD 0 [] := rfl
  rw [h3]
  have h4 : (splitCh (intRepr t ++ (lit ") = " ++ rest)) '(').getD 0 []
      = intRepr t ++ h0 := by
    obtain ⟨g0, gr, hg⟩ : ∃ g0 gr,
        splitCh (intRepr t ++ (lit ") = " ++ rest)) '(' = g0 :: gr := by
      cases hs : splitCh (intRepr t ++ (lit ") = " ++ rest)) '(' with
      | nil => exact absurd hs (splitCh_ne_nil _ _)
      | cons g0 gr => exact ⟨g0, gr, rfl⟩
    rw [hg]
    rw [hg] at h2
    simpa using h2
  rw [h4]
  -- `h0` is the first `(`-segment of `") = " ++ rest`; it starts with `)`.
  have h5 : h0 = ')' :: ((splitCh (lit " = " ++ rest) '(').headD []) := by
    have : lit ") = " ++ rest = [')'] ++ (lit " = " ++ rest) := by rfl
    have h6 := headD_splitCh_nc [')'] '(' (lit " = " ++ rest) (by decide)
    rw [← this] at h6
    rw [hr] at h6
    simpa using h6
  rw [h5]
  have hint2 : ∀ x ∈ intRepr t, x ≠ ')' :=
    forall_ne_of_set (by decide) _ (intRepr_chars t)
  rw [splitCh_eq_cons _ ')' _ hint2]
  rfl

theorem rewrite_line_count (sched : List Lam) (clam line : Str)
    (h : hasSubstr line (lit "mbar_states") = true) :
    rewrite_line sched clam line
      = some (lit "mbar_states = " ++ natRepr sched.length ++ [nlc]) := by
  have hlam : hasSubstr (lit "mbar_states = " ++ (natRepr sched.length ++ [nlc]))
      (lit "mbar_lambda(") = false :=
    hasSubstr_missing _ _ '(' (by decide)
      (forall_ne_append (by decide)
        (forall_ne_append (forall_ne_of_set (by decide) _ (natRepr_digits _)) (by decide)))
  have hcl : hasSubstr (lit "mbar_states = " ++ (natRepr sched.length ++ [nlc]))
      (lit "clambda") = false :=
    hasSubstr_missing _ _ 'c' (by decide)
      (forall_ne_append (by decide)
        (forall_ne_append (forall_ne_of_set (by decide) _ (natRepr_digits _)) (by decide)))
  simp [rewrite_line, h, hlam, hcl]

theorem rewrite_line_pass (sched : List Lam) (clam line : Str)
    (h1 : hasSubstr line (lit "mbar_states") = false)
    (h2 : hasSubstr line (lit "mbar_lambda(") = false)
    (h3 : hasSubstr line (lit "clambda") = false) :
    rewrite_line sched clam line = some line := by
  simp [rewrite_line, h1, h2, h3]

theorem rewrite_line_clam_direct (sched : List Lam) (clam line : Str)
    (h1 : hasSubstr line (lit "mbar_states") = false)
    (h2 : hasSubstr line (lit "mbar_lambda(") = false)
    (h3 : hasSubstr line (lit "clambda") = true) :
    rewrite_line sched clam line = some (lit "clambda = " ++ clam ++ [nlc]) := by
  simp [rewrite_line, h1, h2, h3]

theorem rewrite_line_table (sched : List Lam) (clam : Str) (t : ℤ) (rest : Str)
    (hns : hasSubstr (tlineZ t rest) (lit "mbar_states") = false)
    (hle : t ≤ (sched.length : ℤ)) (v : Lam) (hv : pyIndex sched (t - 1) = some v) :
    rewrite_line sched clam (tlineZ t rest)
      = some (lit "mbar_lambda(" ++ intRepr t ++ lit ") = " ++ pyStr v ++ [nlc]) := by
  have hml : hasSubstr (tlineZ t rest) (lit "mbar_lambda(") = true := by
    apply hasSubstr_of_pfx
    have he : tlineZ t rest
        = lit "mbar_lambda(" ++ (intRepr t ++ (lit ") = " ++ rest)) := by
      simp [tlineZ, List.append_assoc]
    rw [he]
    exact isPfxOf_append_self _ _
  have hparse : parseInt ((splitCh ((splitCh (tlineZ t rest) '(')[1]?.getD []) ')').head?.getD [])
      = some t := by
    have h0 := tlineZ_parse t rest
    simp only [List.getD_eq_getElem?_getD, List.headD_eq_head?_getD] at h0
    rw [h0, parseInt_intRepr]
  have hout_nc : hasSubstr
      (lit "mbar_lambda(" ++ (intRepr t ++ (lit ") = " ++ (pyStr v ++ [nlc]))))
      (lit "clambda") = false :=
    hasSubstr_missing _ _ 'c' (by decide)
      (forall_ne_append (by decide)
        (forall_ne_append (forall_ne_of_set (by decide) _ (intRepr_chars t))
          (forall_ne_append (by decide)
            (forall_ne_append (forall_ne_of_set (by decide) _ (pyStr_chars v)) (by decide)))))
  simp [rewrite_line, hns, hml, hparse, hle, hv, hout_nc]

theorem rewrite_line_drop (sched : List Lam) (clam : Str) (t : ℤ) (rest : Str)
    (hns : hasSubstr (tlineZ t rest) (lit "mbar_states") = false)
    (hgt : (sched.length : ℤ) < t) :
    rewrite_line sched clam (tlineZ t rest) = some [] := by
  have hml : hasSubstr (tlineZ t rest) (lit "mbar_lambda(") = true := by
    apply hasSubstr_of_pfx
    have he : tlineZ t rest
        = lit "mbar_lambda(" ++ (intRepr t ++ (lit ") = " ++ rest)) := by
      simp [tlineZ, List.append_assoc]
    rw [he]
    exact isPfxOf_append_self _ _
  have hparse : parseInt ((splitCh ((splitCh (tlineZ t rest) '(')[1]?.getD []) ')').head?.getD [])
      = some t := by
    have h0 := tlineZ_parse t rest
    simp only [List.getD_eq_getElem?_getD, List.headD_eq_head?_getD] at h0
    rw [h0, parseInt_intRepr]
  have hnle : ¬ t ≤ (sched.length : ℤ) := not_le.mpr hgt
  have hnil : hasSubstr [] (lit "clambda") = false := by decide
  simp [rewrite_line, hns, hml, hparse, hnle, hnil]

theorem bool_eq_false {b : Bool} (h : ¬ b = true) : b = false := by
  cases b
  · rfl
  · exact absurd rfl h

theorem hasSubstr_pfx_concat (a rest : Str) : hasSubstr (a ++ rest) a = true :=
  hasSubstr_of_pfx _ _ (isPfxOf_append_self a rest)

theorem rewrite_line_clam_shape (sched : List Lam) (clam line l2 : Str)
    (h : rewrite_line sched clam line = some l2)
    (hcl : hasSubstr l2 (lit "clambda") = true) :
    l2 = lit "clambda = " ++ clam ++ [nlc] := by
  simp only [rewrite_line] at h
  split at h
  · exact absurd h (by simp)
  · rename_i l2' heq
    rw [Option.some.injEq] at h
    subst h
    by_cases hb : hasSubstr l2' (lit "clambda") = true
    · simp [hb]
    · rw [if_neg hb] at hcl ⊢
      exact absurd hcl hb

theorem rewrite_file_clam (sched : List Lam) (clam : Str) :
    ∀ (content out : List Str), rewrite_file sched clam content = some out →
    ∀ l ∈ out, hasSubstr l (lit "clambda") = true →
      l = lit "clambda = " ++ clam ++ [nlc] := by
  intro content
  induction content with
  | nil =>
    intro out h
    simp only [rewrite_file, Option.some.injEq] at h
    subst h
    intro l hl
    cases hl
  | cons c t ih =>
    intro out h
    simp only [rewrite_file] at h
    split at h
    · exact absurd h (by simp)
    · rename_i l2 heq1
      split at h
      · exact absurd h (by simp)
      · rename_i t2 heq2
        rw [Option.some.injEq] at h
        subst h
        intro l hl hc
        rcases List.mem_cons.mp hl with rfl | hl
        · exact rewrite_line_clam_shape sched clam c l heq1 hc
        · exact ih t2 heq2 l hl hc

theorem rewrite_file_mem (sched : List Lam) (clam : Str) :
    ∀ (content out : List Str), rewrite_file sched clam content = some out →
    ∀ l ∈ content, ∃ l2 ∈ out, rewrite_line sched clam l = some l2 := by
  intro content
  induction content with
  | nil =>
    intro out _ l hl
    cases hl
  | cons c t ih =>
    intro out h
    simp only [rewrite_file] at h
    split at h
    · exact absurd h (by simp)
    · rename_i l2 heq1
      split at h
      · exact absurd h (by simp)
      · rename_i t2 heq2
        rw [Option.some.injEq] at h
        subst h
        intro l hl
        rcases List.mem_cons.mp hl with rfl | hl
        · exact ⟨l2, List.mem_cons_self _ _, heq1⟩
        · obtain ⟨l2', hmem, hrw⟩ := ih t2 heq2 l hl
          exact ⟨l2', List.mem_cons_of_mem _ hmem, hrw⟩

theorem rewrite_line_idem (sched : List Lam) (q : Lam) (l l2 : Str)
    (h : rewrite_line sched (fmt8 q) l = some l2) :
    rewrite_line sched (fmt8 q) l2 = some l2 := by
  by_cases h1 : hasSubstr l (lit "mbar_states") = true
  · rw [rewrite_line_count sched (fmt8 q) l h1, Option.some.injEq] at h
    subst h
    have hc2 : hasSubstr (lit "mbar_states = " ++ natRepr sched.length ++ [nlc])
        (lit "mbar_states") = true := by
      have he : lit "mbar_states = " ++ natRepr sched.length ++ [nlc]
          = lit "mbar_states" ++ (lit " = " ++ (natRepr sched.length ++ [nlc])) := by
        have h0 : lit "mbar_states = " = lit "mbar_states" ++ lit " = " := rfl
        rw [h0]
        simp [List.append_assoc]
      rw [he]
      exact hasSubstr_pfx_concat _ _
    exact rewrite_line_count sched (fmt8 q) _ hc2
  · have h1f := bool_eq_false h1
    by_cases h2 : hasSubstr l (lit "mbar_lambda(") = true
    · cases hp : parseInt ((splitCh ((splitCh l '(')[1]?.getD []) ')').head?.getD []) with
      | none =>
        simp [rewrite_line, h1f, h2, hp] at h
      | some temp =>
        by_cases hle : temp ≤ (sched.length : ℤ)
        · cases hv : pyIndex sched (temp - 1) with
          | none => simp [rewrite_line, h1f, h2, hp, hle, hv] at h
          | some v =>
            have hclam_tbl : hasSubstr
                (lit "mbar_lambda(" ++ (intRepr temp ++ (lit ") = " ++ (pyStr v ++ [nlc]))))
                (lit "clambda") = false :=
              hasSubstr_missing _ _ 'c' (by decide)
                (forall_ne_append (by decide)
                  (forall_ne_append (forall_ne_of_set (by decide) _ (intRepr_chars temp))
                    (forall_ne_append (by decide)
                      (forall_ne_append (forall_ne_of_set (by decide) _ (pyStr_chars v))
                        (by decide)))))
            simp [rewrite_line, h1f, h2, hp, hle, hv, hclam_tbl] at h
            have hns2 : hasSubstr (tlineZ temp (pyStr v ++ [nlc])) (lit "mbar_states") = false := by
              unfold tlineZ
              exact hasSubstr_missing _ _ 's' (by decide)
                (forall_ne_append (forall_ne_append (forall_ne_append (by decide)
                  (forall_ne_of_set (by decide) _ (intRepr_chars temp))) (by decide))
                  (forall_ne_append (forall_ne_of_set (by decide) _ (pyStr_chars v)) (by decide)))
            have htab := rewrite_line_table sched (fmt8 q) temp (pyStr v ++ [nlc]) hns2 hle v hv
            have hl2 : tlineZ temp (pyStr v ++ [nlc]) = l2 := by
              rw [← h]
              simp [tlineZ, List.append_assoc]
            rw [hl2] at htab
            rw [htab, ← h]
            simp [List.append_assoc]
        · have hnil : hasSubstr [] (lit "clambda") = false := by decide
          simp [rewrite_line, h1f, h2, hp, hle, hnil] at h
          subst h
          exact rewrite_line_pass sched (fmt8 q) [] (by decide) (by decide) (by decide)
    · have h2f := bool_eq_false h2
      by_cases h3 : hasSubstr l (lit "clambda") = true
      · rw [rewrite_line_clam_direct sched (fmt8 q) l h1f h2f h3, Option.some.injEq] at h
        subst h
        have g1 : hasSubstr (lit "clambda = " ++ fmt8 q ++ [nlc]) (lit "mbar_states") = false :=
          hasSubstr_missing _ _ 's' (by decide)
            (forall_ne_append (forall_ne_append (by decide)
              (forall_ne_of_set (by decide) _ (fmt8_chars q))) (by decide))
        have g2 : hasSubstr (lit "clambda = " ++ fmt8 q ++ [nlc]) (lit "mbar_lambda(") = false :=
          hasSubstr_missing _ _ '(' (by decide)
            (forall_ne_append (forall_ne_append (by decide)
              (forall_ne_of_set (by decide) _ (fmt8_chars q))) (by decide))
        have g3 : hasSubstr (lit "clambda = " ++ fmt8 q ++ [nlc]) (lit "clambda") = true := by
          have he : lit "clambda = " ++ fmt8 q ++ [nlc]
              = lit "clambda" ++ (lit " = " ++ (fmt8 q ++ [nlc])) := by
            have h0 : lit "clambda = " = lit "clambda" ++ lit " = " := rfl
            rw [h0]
            simp [List.append_assoc]
          rw [he]
          exact hasSubstr_pfx_concat _ _
        exact rewrite_line_clam_direct sched (fmt8 q) _ g1 g2 g3
      · have h3f := bool_eq_false h3
        rw [rewrite_line_pass sched (fmt8 q) l h1f h2f h3f, Option.some.injEq] at h
        subst h
        exact rewrite_line_pass sched (fmt8 q) _ h1f h2f h3f

theorem rewrite_file_idem (sched : List Lam) (q : Lam) :
    ∀ (content out : List Str), rewrite_file sched (fmt8 q) content = some out →
    rewrite_file sched (fmt8 q) out = some out := by
  intro content
  induction content with
  | nil =>
    intro out h
    simp only [rewrite_file, Option.some.injEq] at h
    subst h
    rfl
  | cons c t ih =>
    intro out h
    simp only [rewrite_file] at h
    split at h
    · exact absurd h (by simp)
    · rename_i l2 heq1
      split at h
      · exact absurd h (by simp)
      · rename_i t2 heq2
        rw [Option.some.injEq] at h
        subst h
        show rewrite_file sched (fmt8 q) (l2 :: t2) = some (l2 :: t2)
        simp only [rewrite_file, rewrite_line_idem sched q c l2 heq1, ih t2 heq2]

theorem pairwise_trivial {α : Type _} {Rel : α → α → Prop} (h : ∀ a b, Rel a b) :
    ∀ l : List α, l.Pairwise Rel := by
  intro l
  induction l with
  | nil => exact List.Pairwise.nil
  | cons x t ih => exact List.Pairwise.cons (fun y _ => h x y) ih

theorem groupDescs_step_trial {g : GroupFile} {d : Desc} (hd : d ∈ groupDescs g) :
    d.step = g.step ∧ d.trial = g.trial := by
  unfold groupDescs at hd
  obtain ⟨l, _, rfl⟩ := List.mem_map.mp hd
  exact ⟨rfl, rfl⟩

theorem write_group_files_key (dout : Str) (sched : List Lam) (ntrials t : ℕ) :
    (write_group_files dout sched ntrials).Pairwise
      (fun g1 g2 => (g1.trial = none ∨ g1.trial = some t) →
        (g2.trial = none ∨ g2.trial = some t) → stageIdx g1.step ≤ stageIdx g2.step) := by
  unfold write_group_files
  refine List.pairwise_append.mpr ⟨List.pairwise_append.mpr ⟨?_, ?_, ?_⟩, ?_, ?_⟩
  · rw [List.pairwise_map]
    have hpw : end_states.Pairwise (fun s1 s2 => stageIdx s1 ≤ stageIdx s2) := by decide
    exact hpw.imp (fun h _ _ => h)
  · rw [List.pairwise_map]
    have hpw : lambda_states.Pairwise (fun s1 s2 => stageIdx s1 ≤ stageIdx s2) := by decide
    exact hpw.imp (fun h _ _ => h)
  · intro a ha b hb
    obtain ⟨s1, hs1, rfl⟩ := List.mem_map.mp ha
    obtain ⟨s2, hs2, rfl⟩ := List.mem_map.mp hb
    intro _ _
    have hfact : ∀ s1 ∈ end_states, ∀ s2 ∈ lambda_states, stageIdx s1 ≤ stageIdx s2 := by
      decide
    exact hfact s1 hs1 s2 hs2
  · rw [List.pairwise_flatMap]
    constructor
    · intro n _
      rw [List.pairwise_map]
      have hpw : ti_states.Pairwise (fun s1 s2 => stageIdx s1 ≤ stageIdx s2) := by decide
      exact hpw.imp (fun h _ _ => h)
    · refine (List.pairwise_lt_range ntrials).imp ?_
      intro n1 n2 hlt x hx y hy h1 h2
      obtain ⟨s1, _, rfl⟩ := List.mem_map.mp hx
      obtain ⟨s2, _, rfl⟩ := List.mem_map.mp hy
      exfalso
      rcases h1 with h1 | h1
      · exact Option.noConfusion h1
      · rcases h2 with h2 | h2
        · exact Option.noConfusion h2
        · have e1 : n1 + 1 = t := by injection h1
          have e2 : n2 + 1 = t := by injection h2
          omega
  · intro a ha c hc
    obtain ⟨n, _, hc2⟩ := List.mem_flatMap.mp hc
    obtain ⟨s2, hs2, rfl⟩ := List.mem_map.mp hc2
    have hlb : ∀ s ∈ ti_states, 22 ≤ stageIdx s := by decide
    have hub1 : ∀ s ∈ end_states, stageIdx s ≤ 21 := by decide
    have hub2 : ∀ s ∈ lambda_states, stageIdx s ≤ 21 := by decide
    intro _ _
    rcases List.mem_append.mp ha with ha | ha
    · obtain ⟨s1, hs1, rfl⟩ := List.mem_map.mp ha
      have := hub1 s1 hs1
      have := hlb s2 hs2
      simp only []
      omega
    · obtain ⟨s1, hs1, rfl⟩ := List.mem_map.mp ha
      have := hub2 s1 hs1
      have := hlb s2 hs2
      simp only []
      omega

theorem interior_for_lambda_clam (din dout refl : Str) (sched : List Lam) (q : Lam) :
    ∀ (lamFiles outs : List (Str × List Str)),
    interior_for_lambda din dout refl (fmt8 q) sched lamFiles = some outs →
    ∀ o ∈ outs, ∀ l ∈ o.2, hasSubstr l (lit "clambda") = true →
      l = lit "clambda = " ++ fmt8 q ++ [nlc] := by
  intro lamFiles
  induction lamFiles with
  | nil =>
    intro outs h
    simp only [interior_for_lambda, Option.some.injEq] at h
    subst h
    intro o ho
    cases ho
  | cons fc t ih =>
    intro outs h
    simp only [interior_for_lambda] at h
    split at h
    · exact absurd h (by simp)
    · rename_i out1 heq1
      split at h
      · exact absurd h (by simp)
      · rename_i rest heq2
        rw [Option.some.injEq] at h
        subst h
        intro o ho l hl hc
        rcases List.mem_cons.mp ho with rfl | ho
        · exact rewrite_file_clam sched (fmt8 q) fc.2 out1 heq1 l hl hc
        · exact ih rest heq2 o ho l hl hc

set_option maxRecDepth 10000 in
/-- Claim C1 (code bug, evaluated at the failing input): with the
two-point schedule and one trial, the one `ti` group file reads its
input coordinates and reference from the literal directory `ti`
(lines `-c ti/... -ref ti/...`), while the `preTI` group file of the
same trial writes its restart to `t1/` (its `-r` path) after reading
from the shared `equil` directory; so the per-trial `ti` stage does
not reference its per-trial predecessor's restart path `t1/...`,
contradicting the claim's scope-resolution rule (the shared-predecessor
half, `preTI` reading `equil/`, is the part the code gets right). -/
theorem c1_ti_prevscope_eval :
    ((write_group_files (lit "D") [0, lamScale] 1).filter
        (fun g => g.step == lit "ti")).map (fun g => g.lines)
      = [[lit "-O -p unisc.parm7 -c ti/0.00000000_preTI.rst7 -i inputs/0.00000000_ti.mdin -o t1/0.00000000_ti.mdout -r t1/0.00000000_ti.rst7 -x t1/0.00000000_ti.nc -ref ti/0.00000000_preTI.rst7\n",
         lit "-O -p unisc.parm7 -c ti/1.00000000_preTI.rst7 -i inputs/1.00000000_ti.mdin -o t1/1.00000000_ti.mdout -r t1/1.00000000_ti.rst7 -x t1/1.00000000_ti.nc -ref ti/1.00000000_preTI.rst7\n"]]
  ∧ ((write_group_files (lit "D") [0, lamScale] 1).filter
        (fun g => g.step == lit "preTI")).map (fun g => g.lines)
      = [[lit "-O -p unisc.parm7 -c equil/0.00000000_eqBTI.rst7 -i inputs/0.00000000_preTI.mdin -o t1/0.00000000_preTI.mdout -r t1/0.00000000_preTI.rst7 -x t1/0.00000000_preTI.nc -ref equil/0.00000000_eqBTI.rst7\n",
         lit "-O -p unisc.parm7 -c equil/1.00000000_eqBTI.rst7 -i inputs/1.00000000_preTI.mdin -o t1/1.00000000_preTI.mdout -r t1/1.00000000_preTI.rst7 -x t1/1.00000000_preTI.nc -ref equil/1.00000000_eqBTI.rst7\n"]] := by
  decide

set_option maxRecDepth 10000 in
/-- Claim C2: per-line projection rules of the rewrite, and the concrete
11-point-to-5-point scenario.  First conjunct: every line containing the
multistate-count directive becomes the new count line.  Second: a
well-formed indexed table line with one-based index i at most the
schedule length becomes the i-th schedule value's line.  Third: a table
line with index beyond the schedule length becomes the empty string,
which contributes nothing when the output lines are written, so the line
is dropped from the written file.  Fourth: a line containing none of the
three directive substrings passes through unchanged.  Fifth: projecting
an 11-entry table file onto a 5-point schedule rewrites the count from
11 to 5, rewrites table lines 1 to 5, and drops lines 6 to 11. -/
theorem c2_projection_rules :
    (∀ (sched : List Lam) (clam line : Str),
      hasSubstr line (lit "mbar_states") = true →
      rewrite_line sched clam line
        = some (lit "mbar_states = " ++ natRepr sched.length ++ [nlc]))
  ∧ (∀ (sched : List Lam) (clam rest : Str) (i : ℕ) (v : Lam),
      hasSubstr (tlineZ (i : ℤ) rest) (lit "mbar_states") = false →
      1 ≤ i → i ≤ sched.length → sched[i - 1]? = some v →
      rewrite_line sched clam (tlineZ (i : ℤ) rest)
        = some (lit "mbar_lambda(" ++ natRepr i ++ lit ") = " ++ pyStr v ++ [nlc]))
  ∧ (∀ (sched : List Lam) (clam rest : Str) (i : ℕ),
      hasSubstr (tlineZ (i : ℤ) rest) (lit "mbar_states") = false →
      sched.length < i →
      rewrite_line sched clam (tlineZ (i : ℤ) rest) = some [])
  ∧ (∀ (sched : List Lam) (clam line : Str),
      hasSubstr line (lit "mbar_states") = false →
      hasSubstr line (lit "mbar_lambda(") = false →
      hasSubstr line (lit "clambda") = false →
      rewrite_line sched clam line = some line)
  ∧ rewrite_file [0, 25000000, 50000000, 75000000, lamScale] (fmt8 25000000)
      [lit "mbar_states = 11\n",
       lit "mbar_lambda(1) = 0.00000000\n", lit "mbar_lambda(2) = 0.10000000\n",
       lit "mbar_lambda(3) = 0.20000000\n", lit "mbar_lambda(4) = 0.30000000\n",
       lit "mbar_lambda(5) = 0.40000000\n", lit "mbar_lambda(6) = 0.50000000\n",
       lit "mbar_lambda(7) = 0.60000000\n", lit "mbar_lambda(8) = 0.70000000\n",
       lit "mbar_lambda(9) = 0.80000000\n", lit "mbar_lambda(10) = 0.90000000\n",
       lit "mbar_lambda(11) = 1.00000000\n",
       lit "clambda = 0.10000000\n", lit "ntpr = 100\n"]
    = some
      [lit "mbar_states = 5\n",
       lit "mbar_lambda(1) = 0.0\n", lit "mbar_lambda(2) = 0.25\n",
       lit "mbar_lambda(3) = 0.5\n", lit "mbar_lambda(4) = 0.75\n",
       lit "mbar_lambda(5) = 1.0\n", [], [], [], [], [], [],
       lit "clambda = 0.25000000\n", lit "ntpr = 100\n"] := by
  refine ⟨rewrite_line_count, ?_, ?_, rewrite_line_pass, by decide⟩
  · intro sched clam rest i v hns h1 hle hv
    have hvz : pyIndex sched ((i : ℤ) - 1) = some v := by
      rw [pyIndex_cast_pred sched i h1]
      exact hv
    have h := rewrite_line_table sched clam (i : ℤ) rest hns
      (by exact_mod_cast hle) v hvz
    rwa [intRepr_natCast] at h
  · intro sched clam rest i hns hgt
    exact rewrite_line_drop sched clam (i : ℤ) rest hns (by exact_mod_cast hgt)

/-- Witness for C2: the table-line rule applied at index 2 of a concrete
3-point schedule. -/
theorem c2_witness :
    rewrite_line [0, 25000000, 100000000] tok0 (tlineZ (2 : ℤ) (lit "0.10000000\n"))
      = some (lit "mbar_lambda(" ++ natRepr 2 ++ lit ") = " ++ pyStr 25000000 ++ [nlc]) :=
  c2_projection_rules.2.1 [0, 25000000, 100000000] tok0 (lit "0.10000000\n") 2 25000000
    (by decide) (by decide) (by decide) (by decide)

/-- Claim C3: endpoint files are kept by the endpoint filter, written to
the same file name (only the input directory prefix is replaced by the
output directory), and every coupling-value directive of the written
content carries exactly the file's own endpoint token, chosen by the
`0.00000000`-in-path test, for any schedule whatsoever; and if the file
has a plain coupling-value line, the written file does contain that
token line.  The two side conditions say the directory prefix is
nonempty and does not reoccur inside the rest of the path, which holds
for every path produced by the input-directory glob. -/
theorem c3_endpoint_invariant (din dout name : Str) (sched : List Lam)
    (content out : List Str)
    (hdin : din ≠ [])
    (hname : hasSubstr (lit "/inputs/" ++ name) din = false)
    (hep : (hasSubstr (din ++ (lit "/inputs/" ++ name)) tok0
        || hasSubstr (din ++ (lit "/inputs/" ++ name)) tok1) = true)
    (hrw : rewrite_file sched
        (if hasSubstr (din ++ (lit "/inputs/" ++ name)) tok0 then tok0 else tok1) content
      = some out) :
    endpoint_files [(din ++ (lit "/inputs/" ++ name), content)]
        = [(din ++ (lit "/inputs/" ++ name), content)]
  ∧ process_endpoints din dout sched [(din ++ (lit "/inputs/" ++ name), content)]
        = some [(dout ++ (lit "/inputs/" ++ name), out)]
  ∧ (∀ l ∈ out, hasSubstr l (lit "clambda") = true →
      l = lit "clambda = "
        ++ (if hasSubstr (din ++ (lit "/inputs/" ++ name)) tok0 then tok0 else tok1) ++ [nlc])
  ∧ (∀ l ∈ content, hasSubstr l (lit "clambda") = true →
      hasSubstr l (lit "mbar_states") = false →
      hasSubstr l (lit "mbar_lambda(") = false →
      (lit "clambda = "
        ++ (if hasSubstr (din ++ (lit "/inputs/" ++ name)) tok0 then tok0 else tok1) ++ [nlc])
        ∈ out) := by
  refine ⟨?_, ?_, ?_, ?_⟩
  · simp [endpoint_files, hep]
  · simp only [process_endpoints, hrw]
    rw [pyReplace_concat din dout (lit "/inputs/" ++ name) hdin hname]
  · exact rewrite_file_clam sched _ content out hrw
  · intro l hl hc h1 h2
    obtain ⟨l2, hmem, hrl⟩ := rewrite_file_mem sched _ content out hrw l hl
    rw [rewrite_line_clam_direct sched _ l h1 h2 hc, Option.some.injEq] at hrl
    rwa [← hrl] at hmem

/-- Witness for C3: a concrete 0-endpoint file is written under the
target directory with the same base name and its coupling value forced
to the 0 token, for a concrete schedule. -/
theorem c3_witness :
    process_endpoints (lit "src") (lit "dst") [0, 100000000]
      [(lit "src" ++ (lit "/inputs/" ++ lit "0.00000000_ti.mdin"), [lit "clambda = 1.0\n"])]
      = some [(lit "dst" ++ (lit "/inputs/" ++ lit "0.00000000_ti.mdin"),
               [lit "clambda = 0.00000000\n"])] :=
  (c3_endpoint_invariant (lit "src") (lit "dst") (lit "0.00000000_ti.mdin") [0, 100000000]
    [lit "clambda = 1.0\n"] [lit "clambda = 0.00000000\n"]
    (by decide) (by decide) (by decide) (by decide)).2.1

set_option maxRecDepth 10000 in
/-- Counterexample to claim C4 as stated: the compiled sequence is not
ordered with the stage as primary key.  With two trials, the trial-1
`ti` descriptors (stage position 23) precede the trial-2 `preTI`
descriptors (stage position 22), because the per-trial loop iterates
trials outside and stages inside. -/
theorem c4_counterexample :
    ¬ (compiled_descriptors (lit "D") [0, lamScale] 2).Pairwise
        (fun d1 d2 => stageIdx d1.step ≤ stageIdx d2.step) := by
  decide

/-- Claim C4 (amended): within the compiled descriptor sequence, for any
fixed trial the descriptors belonging to that trial (the shared `equil`
files and the trial's own files) appear with non-decreasing stage
position; in particular all of a predecessor stage's descriptors for a
trial precede all of a successor stage's descriptors for that same
trial, which is the claim's stated consequence. -/
theorem c4_trial_stage_order (dout : Str) (sched : List Lam) (ntrials t : ℕ) :
    (compiled_descriptors dout sched ntrials).Pairwise
      (fun d1 d2 => belongsToTrial t d1 → belongsToTrial t d2 →
        stageIdx d1.step ≤ stageIdx d2.step) := by
  unfold compiled_descriptors
  rw [List.pairwise_flatMap]
  refine ⟨?_, ?_⟩
  · intro g _
    unfold groupDescs
    rw [List.pairwise_map]
    exact pairwise_trivial (fun a b _ _ => le_refl _) _
  · refine (write_group_files_key dout sched ntrials t).imp ?_
    intro g1 g2 hk x hx y hy h1 h2
    obtain ⟨hxs, hxt⟩ := groupDescs_step_trial hx
    obtain ⟨hys, hyt⟩ := groupDescs_step_trial hy
    rw [hxs, hys]
    unfold belongsToTrial at h1 h2
    rw [hxt] at h1
    rw [hyt] at h2
    exact hk h1 h2

set_option maxRecDepth 10000 in
/-- Witness for C4: the per-trial stage ordering at a concrete tree,
schedule and trial count. -/
theorem c4_witness :
    (compiled_descriptors (lit "D") [0, lamScale] 2).Pairwise
      (fun d1 d2 => belongsToTrial 1 d1 → belongsToTrial 1 d2 →
        stageIdx d1.step ≤ stageIdx d2.step) :=
  c4_trial_stage_order (lit "D") [0, lamScale] 2 1

/-- Counterexample to claim C5: the constructor performs no validation,
so a one-element schedule with neither endpoint, invalid by the claimed
rules, is accepted and stored unchanged instead of failing with an
InvalidScheduleError (no such error exists anywhere in the code). -/
theorem c5_counterexample :
    ¬ specScheduleValid [50000000]
  ∧ newLambdaSchedule_init (lit "a") (lit "b") [50000000] 3
      = { input_dir := lit "a", output_dir := lit "b",
          lambda_schedule := [50000000], ntrials := 3 } := by
  exact ⟨by decide, rfl⟩

/-- Claim C5 (amended): construction always succeeds; the four fields
are stored verbatim for every input, valid or not, and no schedule
check of any kind is performed. -/
theorem c5_no_validation (din dout : Str) (sched : List Lam) (nt : ℕ) :
    (newLambdaSchedule_init din dout sched nt).lambda_schedule = sched
  ∧ (newLambdaSchedule_init din dout sched nt).input_dir = din
  ∧ (newLambdaSchedule_init din dout sched nt).output_dir = dout
  ∧ (newLambdaSchedule_init din dout sched nt).ntrials = nt :=
  ⟨rfl, rfl, rfl, rfl⟩

set_option maxRecDepth 10000 in
/-- Counterexample to claim C6: a source listing with no endpoint file
does not make projection fail with a MissingEndpointError (which does
not exist in the code); the endpoint pass silently processes zero files
and the projection completes, writing only interior files. -/
theorem c6_counterexample :
    write_new_lambda_schedule (lit "src") (lit "dst") [0, 50000000, lamScale]
      [(lit "src/inputs/a_ti.mdin", [lit "clambda = 0.30000000\n"])]
      = some [(lit "dst/inputs/0.50000000_ti.mdin", [lit "clambda = 0.50000000\n"])] := by
  decide

/-- Claim C6 (amended): there is no MissingEndpointError and no
MissingTemplateError.  When every listed file carries the 0 token and
the listing is nonempty, template search ends in an unbound-variable
NameError, modelled as failure; when no file carries either endpoint
token the endpoint filter is simply empty, and processing an empty
endpoint list silently succeeds. -/
theorem c6_error_behavior :
    (∀ files : List (Str × List Str), files ≠ [] →
      (∀ fc ∈ files, hasSubstr fc.1 tok0 = true) → find_lambda_files files = none)
  ∧ (∀ files : List (Str × List Str),
      (∀ fc ∈ files, hasSubstr fc.1 tok0 = false ∧ hasSubstr fc.1 tok1 = false) →
      endpoint_files files = [])
  ∧ (∀ (din dout : Str) (sched : List Lam),
      process_endpoints din dout sched [] = some []) := by
  refine ⟨?_, ?_, fun _ _ _ => rfl⟩
  · intro files hne hall
    unfold find_lambda_files
    have hfind : files.find? (fun fc => !hasSubstr fc.1 tok0) = none := by
      rw [List.find?_eq_none]
      intro fc hfc
      simp [hall fc hfc]
    rw [hfind]
    simp [hne]
  · intro files hall
    unfold endpoint_files
    rw [List.filter_eq_nil_iff]
    intro fc hfc
    simp [(hall fc hfc).1, (hall fc hfc).2]

/-- Witness for C6: the all-endpoint listing on which template search
fails with the modelled NameError rather than a MissingTemplateError. -/
theorem c6_witness :
    find_lambda_files [(lit "0.00000000_ti.mdin", ([] : List Str))] = none :=
  c6_error_behavior.1 [(lit "0.00000000_ti.mdin", [])] (by decide) (by decide)

/-- Claim C7: projection is idempotent.  Whenever a first rewrite of a
file's lines with a schedule and the 8-decimal coupling token of a
target lambda value succeeds, rewriting the output again with the same
schedule and token reproduces the output unchanged. -/
theorem c7_projection_idempotent (sched : List Lam) (q : Lam) (content out : List Str)
    (h : rewrite_file sched (fmt8 q) content = some out) :
    rewrite_file sched (fmt8 q) out = some out :=
  rewrite_file_idem sched q content out h

set_option maxRecDepth 10000 in
/-- Witness for C7: a concrete first projection and its fixed point. -/
theorem c7_witness :
    rewrite_file [0, lamScale] (fmt8 0)
      [lit "mbar_states = 11\n", lit "mbar_lambda(1) = 0.5\n",
       lit "mbar_lambda(3) = 0.9\n", lit "clambda = 0.7\n", lit "bar\n"]
      = some [lit "mbar_states = 2\n", lit "mbar_lambda(1) = 0.0\n", [],
              lit "clambda = 0.00000000\n", lit "bar\n"]
  ∧ rewrite_file [0, lamScale] (fmt8 0)
      [lit "mbar_states = 2\n", lit "mbar_lambda(1) = 0.0\n", [],
       lit "clambda = 0.00000000\n", lit "bar\n"]
      = some [lit "mbar_states = 2\n", lit "mbar_lambda(1) = 0.0\n", [],
              lit "clambda = 0.00000000\n", lit "bar\n"] :=
  ⟨by decide, c7_projection_idempotent [0, lamScale] 0
    [lit "mbar_states = 11\n", lit "mbar_lambda(1) = 0.5\n",
     lit "mbar_lambda(3) = 0.9\n", lit "clambda = 0.7\n", lit "bar\n"]
    [lit "mbar_states = 2\n", lit "mbar_lambda(1) = 0.0\n", [],
     lit "clambda = 0.00000000\n", lit "bar\n"] (by decide)⟩

set_option maxRecDepth 10000 in
/-- Claim C8 (code bug, evaluated at the failing input): the tree copy
excludes energy logs but not trajectories.  The `.mdout` file under
`t1/` is dropped by the base-name pattern, but the `.nc` file under
`t1/` is copied, because the `t*/*.nc` pattern is matched against bare
directory-entry base names, which never contain a slash; the final
conjunct shows the same pattern does match the slash-joined relative
path, which is what the pattern was evidently written for. -/
theorem c8_copy_eval :
    copy_directory_files
      [[lit "unisc.parm7"],
       [lit "inputs", lit "0.00000000_ti.mdin"],
       [lit "t1", lit "0.00000000_ti.nc"],
       [lit "t1", lit "0.00000000_ti.mdout"],
       [lit "t1", lit "0.00000000_ti.rst7"],
       [lit "equil", lit "0.00000000_eqP.rst7"]]
    = [[lit "unisc.parm7"],
       [lit "inputs", lit "0.00000000_ti.mdin"],
       [lit "t1", lit "0.00000000_ti.nc"],
       [lit "t1", lit "0.00000000_ti.rst7"],
       [lit "equil", lit "0.00000000_eqP.rst7"]]
  ∧ ignoredName (lit "0.00000000_ti.nc") = false
  ∧ ignoredName (lit "0.00000000_ti.mdout") = true
  ∧ globMatch (lit "t*/*.nc") (lit "t1/0.00000000_ti.nc") = true := by
  decide

set_option maxRecDepth 10000 in
/-- Claim C9: template selection excludes only the 0 token, so in a
listing whose first non-0 file is the 1.0 endpoint file, that endpoint
file is the structural template: `find_lambda_files` returns exactly it,
and every interior file of the new schedule is generated from its
content (here recognisable by its own directive values) under a name
obtained by substituting the `1.00000000` token. -/
theorem c9_template_endpoint :
    find_lambda_files
      [(lit "src/inputs/0.00000000_ti.mdin",
        [lit "clambda = 0.00000000\n", lit "mbar_states = 2\n"]),
       (lit "src/inputs/1.00000000_ti.mdin",
        [lit "clambda = 1.00000000\n", lit "mbar_states = 2\n"])]
      = some [(lit "src/inputs/1.00000000_ti.mdin",
               [lit "clambda = 1.00000000\n", lit "mbar_states = 2\n"])]
  ∧ write_new_lambda_schedule (lit "src") (lit "dst") [0, 50000000, lamScale]
      [(lit "src/inputs/0.00000000_ti.mdin",
        [lit "clambda = 0.00000000\n", lit "mbar_states = 2\n"]),
       (lit "src/inputs/1.00000000_ti.mdin",
        [lit "clambda = 1.00000000\n", lit "mbar_states = 2\n"])]
      = some
        [(lit "dst/inputs/0.00000000_ti.mdin",
          [lit "clambda = 0.00000000\n", lit "mbar_states = 3\n"]),
         (lit "dst/inputs/1.00000000_ti.mdin",
          [lit "clambda = 1.00000000\n", lit "mbar_states = 3\n"]),
         (lit "dst/inputs/0.50000000_ti.mdin",
          [lit "clambda = 0.50000000\n", lit "mbar_states = 3\n"])] := by
  exact ⟨by decide, by decide⟩

/-- Claim C10: a rewritten table line carries the schedule value's plain
str rendering while the coupling-value line carries the 8-decimal
fixed-point token.  First conjunct: the general table-line rewrite uses
the str rendering of the schedule entry.  Second and third: for the
value one tenth these two renderings differ, 0.1 against 0.10000000.
Fourth: every coupling-value line written by the interior pass carries
the 8-decimal token of the target lambda value. -/
theorem c10_value_renderings :
    (∀ (sched : List Lam) (clam rest : Str) (i : ℕ) (v : Lam),
      hasSubstr (tlineZ (i : ℤ) rest) (lit "mbar_states") = false →
      1 ≤ i → i ≤ sched.length → sched[i - 1]? = some v →
      rewrite_line sched clam (tlineZ (i : ℤ) rest)
        = some (lit "mbar_lambda(" ++ natRepr i ++ lit ") = " ++ pyStr v ++ [nlc]))
  ∧ pyStr 10000000 = lit "0.1"
  ∧ fmt8 10000000 = lit "0.10000000"
  ∧ (∀ (din dout refl : Str) (sched : List Lam) (q : Lam)
      (lamFiles outs : List (Str × List Str)),
      interior_for_lambda din dout refl (fmt8 q) sched lamFiles = some outs →
      ∀ o ∈ outs, ∀ l ∈ o.2, hasSubstr l (lit "clambda") = true →
        l = lit "clambda = " ++ fmt8 q ++ [nlc]) := by
  refine ⟨?_, by decide, by decide, ?_⟩
  · intro sched clam rest i v hns h1 hle hv
    have hvz : pyIndex sched ((i : ℤ) - 1) = some v := by
      rw [pyIndex_cast_pred sched i h1]
      exact hv
    have h := rewrite_line_table sched clam (i : ℤ) rest hns
      (by exact_mod_cast hle) v hvz
    rwa [intRepr_natCast] at h
  · intro din dout refl sched q lamFiles outs h
    exact interior_for_lambda_clam din dout refl sched q lamFiles outs h

/-- Witness for C10: at index 2 of the schedule holding one tenth, the
emitted table line reads 0.1, not 0.10000000. -/
theorem c10_witness :
    rewrite_line [0, 10000000, 100000000] (fmt8 10000000) (tlineZ (2 : ℤ) (lit "0.10000000\n"))
      = some (lit "mbar_lambda(" ++ natRepr 2 ++ lit ") = " ++ pyStr 10000000 ++ [nlc])
  ∧ pyStr 10000000 = lit "0.1" :=
  ⟨c10_value_renderings.1 [0, 10000000, 100000000] (fmt8 10000000) (lit "0.10000000\n")
      2 10000000 (by decide) (by decide) (by decide) (by decide),
   c10_value_renderings.2.1⟩
